import Mathlib

/-!
Shallow embedding of the hexagonal-bank core (Go sources) in Lean 4.

Conventions of the embedding:
* Go `int64` values are modeled as `Int`; every arithmetic operation that the
  Go code performs on `int64` is wrapped with `wrap64`, the two's-complement
  reduction into `[-2^63, 2^63)`, because Go signed arithmetic wraps on
  overflow.
* Go methods that mutate a receiver and return `error` become functions
  returning `Except Err Account`: the `.ok` value is the mutated receiver,
  `.error` means the receiver was left unchanged (the Go methods return
  before mutating on every error path).
* Go strings are modeled as Lean `String` / `List Char`; the CLABE factory's
  byte-length check coincides with the char-length check on the accept side
  because an accepted string is all ASCII.
* The in-memory repository clones accounts on the way in (`Save`, `Create`)
  and on the way out (`ByID`), so at the use-case level it has value
  semantics; the store is an association list where the newest binding for a
  key shadows older ones.  A separate explicit pointer/heap model of the
  repository is given further below to reason about caller-side mutation of
  returned snapshots.
-/

/-- Two's-complement reduction of an integer into the `int64` range
`[-2^63, 2^63)`, the result Go's wrapping `int64` arithmetic produces. -/
def wrap64 (x : Int) : Int := (x + 2 ^ 63) % 2 ^ 64 - 2 ^ 63

/-- `wrap64` is the identity on values already in the `int64` range. -/
theorem wrap64_eq_self {x : Int} (hlo : -(2 ^ 63) ≤ x) (hhi : x < 2 ^ 63) :
    wrap64 x = x := by
  unfold wrap64
  omega

/-- CLABE value object (`domain.CLABE`): holds the normalized digit string. -/
structure CLABE where
  value : String
deriving DecidableEq

/-- The error values of the program (`domain/errors.go`, the repository's
`not found` / `already exists` errors, the transfer use case's
`stp not ok` error, and the STP client's transient / context errors). -/
inductive Err where
  | invalidAmount
  | insufficientFunds
  | invalidCLABE
  | emptyHolder
  | notFound
  | alreadyExists
  | stpNotOk (status : String)
  | transientSTP
  | ctxCanceled
  | unreachableSTP
deriving DecidableEq

/-- `domain.Account`: ID, holder name, CLABE and balance in cents (int64). -/
structure Account where
  ID : String
  holderName : String
  clabe : CLABE
  balance : Int
deriving DecidableEq

/-- `domain.NewCLABE`: remove every space character (Go
`strings.ReplaceAll(raw, " ", "")`), then require length 18 and all
characters in `'0'..'9'`. -/
def NewCLABE (raw : String) : Except Err CLABE :=
  let normalized := raw.toList.filter (fun c => c ≠ ' ')
  if normalized.length ≠ 18 then .error .invalidCLABE
  else if normalized.all (fun r => decide ('0' ≤ r ∧ r ≤ '9')) then
    .ok ⟨String.mk normalized⟩
  else .error .invalidCLABE

/-- `domain.NewAccount`: rejects blank holder names, starts with balance 0.
Go's check `strings.TrimSpace(holderName) == ""` holds exactly when every
character of the name is whitespace. -/
def NewAccount (id holderName : String) (clabe : CLABE) : Except Err Account :=
  if holderName.toList.all Char.isWhitespace then .error .emptyHolder
  else .ok ⟨id, holderName, clabe, 0⟩

/-- `Account.Debit`: reject amounts ≤ 0, reject when the (int64-wrapped)
difference is negative, otherwise store the difference. -/
def Account.Debit (a : Account) (cents : Int) : Except Err Account :=
  if cents ≤ 0 then .error .invalidAmount
  else if wrap64 (a.balance - cents) < 0 then .error .insufficientFunds
  else .ok { a with balance := wrap64 (a.balance - cents) }

/-- `Account.Credit`: reject amounts ≤ 0, otherwise add (int64-wrapped). -/
def Account.Credit (a : Account) (cents : Int) : Except Err Account :=
  if cents ≤ 0 then .error .invalidAmount
  else .ok { a with balance := wrap64 (a.balance + cents) }

/-- Value-level view of `memory.AccountRepository`: an association list from
account id to the stored account value (newest binding wins, matching map
overwrite). -/
abbrev Store := List (String × Account)

/-- `AccountRepository.ByID`: a missing id is a `not found` error; a present
id yields a detached copy of the stored account (the clone of a value is the
value itself). -/
def Store.ByID (s : Store) (id : String) : Except Err Account :=
  match s.lookup id with
  | none => .error .notFound
  | some a => .ok a

/-- `AccountRepository.Save`: unconditionally overwrite the binding for
`account.ID` with a copy of the account (upsert). -/
def Store.Save (s : Store) (a : Account) : Store := (a.ID, a) :: s

/-- The transfer use case's observable outcome: returned value or error, the
resulting store, whether the payment gateway was invoked, and how many
`Save` calls were made. -/
structure TransferInput where
  FromID : String
  ToID : String
  Cents : Int
deriving DecidableEq

structure TransferOutput where
  FromBalance : Int
  ToBalance : Int
deriving DecidableEq

structure ExecResult where
  out : Except Err TransferOutput
  store : Store
  gatewayCalled : Bool
  saveCalls : Nat

/-- `TransferMoneyUseCase.Execute` (against the in-memory repository, whose
`Save` never fails).  The payment gateway's reply is passed in as the pair
`gw = (status, error)`; the gateway is consulted exactly once, after both
domain mutations succeed.  The event publish is fire-and-forget (its result
is discarded by the Go code), so it does not appear in the outcome. -/
def TransferExecute (s : Store) (gw : String × Option Err) (input : TransferInput) :
    ExecResult :=
  match Store.ByID s input.FromID with
  | .error e => ⟨.error e, s, false, 0⟩
  | .ok fromAccount =>
    match Store.ByID s input.ToID with
    | .error e => ⟨.error e, s, false, 0⟩
    | .ok toAccount =>
      match fromAccount.Debit input.Cents with
      | .error e => ⟨.error e, s, false, 0⟩
      | .ok fromAccount2 =>
        match toAccount.Credit input.Cents with
        | .error e => ⟨.error e, s, false, 0⟩
        | .ok toAccount2 =>
          match gw.2 with
          | some e => ⟨.error e, s, true, 0⟩
          | none =>
            if gw.1 ≠ "OK" then ⟨.error (.stpNotOk gw.1), s, true, 0⟩
            else
              let s1 := Store.Save s fromAccount2
              let s2 := Store.Save s1 toAccount2
              ⟨.ok ⟨fromAccount2.balance, toAccount2.balance⟩, s2, true, 2⟩

/-- Outcome of one `FakeSTP.SendTransfer` run: the returned status string,
the returned error, and how many attempts were made and backoff waits
completed. -/
structure STPRun where
  status : String
  err : Option Err
  attempts : Nat
  waits : Nat
deriving DecidableEq

/-- The body of `FakeSTP.SendTransfer`'s retry loop
(`for attemptIndex := 0; attemptIndex <= maxRetries; attemptIndex++` with
`maxRetries = 4`).  `succ i` tells whether the simulated external call
succeeds at attempt `i` (Go: `rand.Float64() < 0.7`), `cancel i` whether the
context is observed cancelled during the backoff wait after attempt `i`.
The fuel argument counts the loop iterations still allowed; exhausting it is
Go's defensive unreachable `return "FAILED", fmt.Errorf("unreachable")`. -/
def stpLoop (succ cancel : Nat → Bool) : Nat → Nat → STPRun
  | 0, _ => ⟨"FAILED", some .unreachableSTP, 0, 0⟩
  | fuel + 1, i =>
    if succ i then ⟨"OK", none, 1, 0⟩
    else if i = 4 then ⟨"FAILED", some .transientSTP, 1, 0⟩
    else if cancel i then ⟨"CANCELLED", some .ctxCanceled, 1, 0⟩
    else
      let r := stpLoop succ cancel fuel (i + 1)
      ⟨r.status, r.err, r.attempts + 1, r.waits + 1⟩

/-- `FakeSTP.SendTransfer`: run the loop over attempt indices 0..4. -/
def SendTransfer (succ cancel : Nat → Bool) : STPRun := stpLoop succ cancel 5 0

/-!
Bit-exact model of the float64 arithmetic in `backoff.FullJitter`.  A finite
IEEE-754 binary64 value is a significand/exponent pair `m * 2^e`; rounding
is round to nearest, ties to even, at 53 significand bits.  The exponent
range is left unbounded: overflow to infinity and subnormal flushing are not
modeled (the pipeline's values stay far inside the normal range), and the
fueled bit-length search covers magnitudes up to `2^4096`, beyond binary64's
entire range.
-/

/-- A finite binary64 value `m * 2^e` (sign carried by `m`). -/
structure FP where
  m : Int
  e : Int
deriving DecidableEq

/-- Fueled base-2 integer logarithm (`log2n fuel n = ⌊log2 n⌋` for
`1 ≤ n < 2^fuel`); structural so the kernel can evaluate it. -/
def log2n : Nat → Nat → Nat
  | 0, _ => 0
  | fuel + 1, n => if n ≤ 1 then 0 else log2n fuel (n / 2) + 1

def flog2 (x : Nat) : Nat := log2n 4096 x

/-- Decides `n / d < 2^g` for positive `n`, `d` by cross-multiplying. -/
def ratLtPow2 (n d g : Int) : Bool :=
  if 0 ≤ g then decide (n < d * 2 ^ g.toNat) else decide (n * 2 ^ (-g).toNat < d)

/-- Round the rational `n / d` (`d > 0`) to the nearest binary64 value:
53-bit significand, round to nearest, ties to even. -/
def rneND (n : Int) (d : Int) : FP :=
  if n = 0 then ⟨0, 0⟩
  else
    let na : Int := |n|
    let g : Int := (flog2 na.toNat : Int) - (flog2 d.toNat : Int)
    let e0 : Int := (if ratLtPow2 na d g then g - 1 else g) - 52
    let N : Int := if 0 ≤ e0 then na else na * 2 ^ (-e0).toNat
    let D : Int := if 0 ≤ e0 then d * 2 ^ e0.toNat else d
    let fl : Int := ((N.toNat / D.toNat : Nat) : Int)
    let r : Int := ((N.toNat % D.toNat : Nat) : Int)
    let m : Int :=
      if 2 * r < D then fl
      else if D < 2 * r then fl + 1
      else if fl % 2 = 0 then fl else fl + 1
    ⟨if n < 0 then -m else m, e0⟩

/-- Go's int64-to-float64 conversion: round to nearest, ties to even. -/
def i64ToFloat (x : Int) : FP := rneND x 1

/-- Binary64 multiplication: the exact product rounded to nearest, ties to
even (rounding commutes with the power-of-two scaling `2^(a.e + b.e)`). -/
def fpMul (a b : FP) : FP :=
  let f := rneND (a.m * b.m) 1
  ⟨f.m, f.e + a.e + b.e⟩

/-- Go's float64-to-int64 conversion (`time.Duration(...)`): truncation
toward zero.  Out-of-range conversions are implementation-defined in Go and
not modeled. -/
def fpToInt64 (f : FP) : Int :=
  if 0 ≤ f.e then f.m * 2 ^ f.e.toNat
  else
    if 0 ≤ f.m then ((f.m.toNat / 2 ^ (-f.e).toNat : Nat) : Int)
    else -(((-f.m).toNat / 2 ^ (-f.e).toNat : Nat) : Int)

/-- `backoff.FullJitter`.  The pipeline
`time.Duration(float64(baseDelay) * math.Pow(multiplier, float64(attemptIndex)))`
is modeled bit-exactly: `i64ToFloat` converts `baseDelay`, `powv` stands for
the float64 value the external `math.Pow(multiplier, float64(attemptIndex))`
call returned (Go documents `Pow(x, 0) = 1` and `Pow(x, 1) = x` but
specifies no accuracy for other exponents), `fpMul` is the correctly
rounded float64 multiplication, and `fpToInt64` the truncating conversion
back to `time.Duration`.  The process-wide random source is passed as
`draw`, standing for `rand.Int63n`: `draw n` is the value drawn from
`[0, n)`. -/
def FullJitter (baseDelay : Int) (powv : FP) (maxDelay : Int) (draw : Int → Int) : Int :=
  let exponential : Int := fpToInt64 (fpMul (i64ToFloat baseDelay) powv)
  let capped : Int := if exponential > maxDelay then maxDelay else exponential
  draw (capped + 1)

/-!
Pointer/heap model of `memory.AccountRepository`, used to reason about what
caller-side mutation of a returned snapshot does to the stored state.  The
Go map stores `*domain.Account`; `cloneAccount` allocates a fresh cell and
copies the pointed-to value into it.
-/

/-- A heap of `Account` cells addressed by natural numbers; `next` is the
next fresh address. -/
structure Heap where
  cells : List (Nat × Account)
  next : Nat
deriving DecidableEq

def heapGet (h : Heap) (p : Nat) : Option Account := h.cells.lookup p

def heapSet (h : Heap) (p : Nat) (a : Account) : Heap :=
  ⟨(p, a) :: h.cells, h.next⟩

def heapAlloc (h : Heap) (a : Account) : Heap × Nat :=
  (⟨(h.next, a) :: h.cells, h.next + 1⟩, h.next)

/-- `memory.cloneAccount`: copy the pointed-to account into a fresh cell
(`copy := *account; return &copy`).  A dangling pointer is never passed by
the repository's code. -/
def cloneAccount (h : Heap) (p : Nat) : Option (Heap × Nat) :=
  (heapGet h p).map (fun a => heapAlloc h a)

/-- Pointer-level repository state: account id to heap address of the
authoritative copy. -/
abbrev PtrRepo := List (String × Nat)

/-- `AccountRepository.ByID`, pointer level: look the id up and return a
clone of the stored account (a fresh address).  The inner `none` branch is
unreachable when every stored address is live. -/
def PtrRepo.ByID (r : PtrRepo) (h : Heap) (id : String) : Except Err (Heap × Nat) :=
  match r.lookup id with
  | none => .error .notFound
  | some p =>
    match cloneAccount h p with
    | none => .error .notFound
    | some hp => .ok hp

/-- `AccountRepository.Create`, pointer level: the caller hands a pointer to
its account; an existing binding for that account's ID is an
`already exists` error (state untouched), otherwise a clone is stored. -/
def PtrRepo.Create (r : PtrRepo) (h : Heap) (p : Nat) :
    Except Err (PtrRepo × Heap) :=
  match heapGet h p with
  | none => .error .notFound
  | some a =>
    if (r.lookup a.ID).isSome then .error .alreadyExists
    else
      let hp := heapAlloc h a
      .ok ((a.ID, hp.2) :: r, hp.1)

/-- The account value a `ByID` call for `id` hands to the caller (the clone
carries exactly the stored cell's value). -/
def PtrRepo.byIDValue (r : PtrRepo) (h : Heap) (id : String) : Option Account :=
  (r.lookup id).bind (heapGet h)

/-- Caller-side mutation of a snapshot: run `Credit` on the account cell at
`p` (Go mutates through the pointer only when the method succeeds). -/
def creditAt (h : Heap) (p : Nat) (cents : Int) : Heap :=
  match heapGet h p with
  | none => h
  | some a =>
    match a.Credit cents with
    | .ok a2 => heapSet h p a2
    | .error _ => h

/-- Caller-side mutation of a snapshot: run `Debit` on the cell at `p`. -/
def debitAt (h : Heap) (p : Nat) (cents : Int) : Heap :=
  match heapGet h p with
  | none => h
  | some a =>
    match a.Debit cents with
    | .ok a2 => heapSet h p a2
    | .error _ => h

/-- Well-formedness of a repository state: every stored address was
allocated (is below the heap's fresh-address watermark). -/
def RepoWF (r : PtrRepo) (h : Heap) : Prop := ∀ pr ∈ r, pr.2 < h.next

/-! Sequences of `Credit` / `Debit` calls against one account. -/

/-- One call of the balance-mutating API. -/
inductive Op where
  | credit (cents : Int)
  | debit (cents : Int)
deriving DecidableEq

/-- The amount an operation carries. -/
def Op.amount : Op → Int
  | .credit c => c
  | .debit c => c

/-- Perform one call: on error the account is unchanged (the Go methods
return before mutating on every error path). -/
def applyOp (a : Account) : Op → Account
  | .credit c =>
    match a.Credit c with
    | .ok a2 => a2
    | .error _ => a
  | .debit c =>
    match a.Debit c with
    | .ok a2 => a2
    | .error _ => a

/-- Perform a sequence of calls in order. -/
def applyOps (a : Account) (ops : List Op) : Account := ops.foldl applyOp a

/-- The net amount of the calls that succeed along the run: each successful
credit contributes `+cents`, each successful debit `-cents`, failed calls
contribute nothing. -/
def appliedDelta : Account → List Op → Int
  | _, [] => 0
  | a, op :: rest =>
    (match op with
      | .credit c =>
        match a.Credit c with
        | .ok _ => c
        | .error _ => 0
      | .debit c =>
        match a.Debit c with
        | .ok _ => -c
        | .error _ => 0)
    + appliedDelta (applyOp a op) rest

/-- Executable check that no successful credit along the run overflows the
int64 balance: for each credit in the sequence, the balance it is applied to
plus its amount stays below `2^63`. -/
def noCreditOverflow (a : Account) : List Op → Bool
  | [] => true
  | .credit c :: rest =>
    decide (a.balance + c < 2 ^ 63) && noCreditOverflow (applyOp a (.credit c)) rest
  | .debit c :: rest => noCreditOverflow (applyOp a (.debit c)) rest

/-! Concrete fixtures used by the scenario theorems and witnesses. -/

def clabeA : CLABE := ⟨"032180000118359719"⟩

/-- The account `NewAccount "acc-1" "Alice" clabeA` constructs. -/
def acct0 : Account := ⟨"acc-1", "Alice", clabeA, 0⟩

def accA : Account := ⟨"A", "Alice", clabeA, 10000⟩

def accB : Account := ⟨"B", "Bob", clabeA, 0⟩

def storeAB : Store := [("A", accA), ("B", accB)]

/-- An account holding the largest int64 balance, reachable by one credit of
`2^63 - 1` cents. -/
def accMax : Account := ⟨"A", "Alice", clabeA, 2 ^ 63 - 1⟩

/-- Claim C3: transferring 5000 from A (balance 10000) to B (balance 0) with
the payment rail answering OK on the first attempt succeeds, stores balances
A = 5000 and B = 5000, and returns exactly these post-transfer balances. -/
theorem transfer_ok_scenario :
    (TransferExecute storeAB ("OK", none) ⟨"A", "B", 5000⟩).out = .ok ⟨5000, 5000⟩
    ∧ (TransferExecute storeAB ("OK", none) ⟨"A", "B", 5000⟩).store.lookup "A"
        = some { accA with balance := 5000 }
    ∧ (TransferExecute storeAB ("OK", none) ⟨"A", "B", 5000⟩).store.lookup "B"
        = some { accB with balance := 5000 } :=
  ⟨rfl, rfl, rfl⟩

/-- Claim C1: whenever the payment gateway's reply is an error or a non-OK
status (FAILED after exhausted retries, CANCELLED, ...), the transfer
workflow aborts with an error, makes no `Save` call, and the store — hence
the stored balance of every account — is exactly what it was before. -/
theorem transfer_gateway_failure_no_persist
    (s : Store) (gw : String × Option Err) (input : TransferInput)
    (hgw : gw.2 ≠ none ∨ gw.1 ≠ "OK") :
    (TransferExecute s gw input).store = s
    ∧ (TransferExecute s gw input).saveCalls = 0
    ∧ ∃ e, (TransferExecute s gw input).out = .error e := by
  unfold TransferExecute
  repeat' split
  any_goals exact ⟨rfl, rfl, _, rfl⟩
  simp_all

theorem transfer_gateway_failure_no_persist_witness :
    (TransferExecute storeAB ("FAILED", some .transientSTP) ⟨"A", "B", 5000⟩).store
        = storeAB
    ∧ (TransferExecute storeAB ("FAILED", some .transientSTP) ⟨"A", "B", 5000⟩).saveCalls
        = 0
    ∧ ∃ e, (TransferExecute storeAB ("FAILED", some .transientSTP) ⟨"A", "B", 5000⟩).out
        = .error e :=
  transfer_gateway_failure_no_persist storeAB ("FAILED", some .transientSTP)
    ⟨"A", "B", 5000⟩ (Or.inl (by decide))

/-- Claim C4: if the debit fails, or the debit succeeds and the credit
fails, the workflow returns exactly that domain error, the payment gateway
is never invoked, no `Save` call is made, and the store is unchanged. -/
theorem transfer_domain_error_before_gateway
    (s : Store) (gw : String × Option Err) (input : TransferInput)
    (f t : Account) (e : Err)
    (hf : Store.ByID s input.FromID = .ok f)
    (ht : Store.ByID s input.ToID = .ok t)
    (hfail : f.Debit input.Cents = .error e
      ∨ ∃ f2, f.Debit input.Cents = .ok f2 ∧ t.Credit input.Cents = .error e) :
    TransferExecute s gw input = ⟨.error e, s, false, 0⟩ := by
  unfold TransferExecute
  rcases hfail with hd | ⟨f2, hd, hc⟩
  · simp only [hf, ht, hd]
  · simp only [hf, ht, hd, hc]

theorem transfer_domain_error_before_gateway_witness :
    TransferExecute storeAB ("OK", none) ⟨"A", "B", 20000⟩
      = ⟨.error .insufficientFunds, storeAB, false, 0⟩ :=
  transfer_domain_error_before_gateway storeAB ("OK", none) ⟨"A", "B", 20000⟩
    accA accB .insufficientFunds rfl rfl (Or.inl rfl)

/-- Claim C2 (amended): a same-account transfer with `0 < amount ≤ balance`,
an OK gateway reply, and no int64 overflow (`balance + amount < 2^63`)
debits one snapshot and credits the other, saves both (the credit saved
last wins), stores `balance + amount`, and returns
`(balance - amount, balance + amount)`, both different from the pre-state
balance. -/
theorem transfer_same_account_aliasing
    (s : Store) (id : String) (a : Account) (c : Int)
    (hlk : s.lookup id = some a) (hid : a.ID = id)
    (hb : 0 ≤ a.balance) (hc : 0 < c) (hcb : c ≤ a.balance)
    (hov : a.balance + c < 2 ^ 63) :
    (TransferExecute s ("OK", none) ⟨id, id, c⟩).out
        = .ok ⟨a.balance - c, a.balance + c⟩
    ∧ (TransferExecute s ("OK", none) ⟨id, id, c⟩).store.lookup id
        = some { a with balance := a.balance + c }
    ∧ a.balance - c ≠ a.balance ∧ a.balance + c ≠ a.balance := by
  have hbid : Store.ByID s id = .ok a := by
    unfold Store.ByID
    rw [hlk]
  have hdeb : a.Debit c = .ok { a with balance := a.balance - c } := by
    unfold Account.Debit
    rw [wrap64_eq_self (by omega) (by omega), if_neg (by omega), if_neg (by omega)]
  have hcred : a.Credit c = .ok { a with balance := a.balance + c } := by
    unfold Account.Credit
    rw [wrap64_eq_self (by omega) (by omega), if_neg (by omega)]
  refine ⟨?_, ?_, by omega, by omega⟩
  · simp only [TransferExecute, hbid, hdeb, hcred]
    rfl
  · simp only [TransferExecute, hbid, hdeb, hcred, Store.Save]
    simp [List.lookup, hid]

theorem transfer_same_account_aliasing_witness :
    (TransferExecute [("A", accA)] ("OK", none) ⟨"A", "A", 600⟩).out
        = .ok ⟨accA.balance - 600, accA.balance + 600⟩
    ∧ (TransferExecute [("A", accA)] ("OK", none) ⟨"A", "A", 600⟩).store.lookup "A"
        = some { accA with balance := accA.balance + 600 }
    ∧ accA.balance - 600 ≠ accA.balance ∧ accA.balance + 600 ≠ accA.balance :=
  transfer_same_account_aliasing [("A", accA)] "A" accA 600 rfl rfl
    (by decide) (by decide) (by decide) (by decide)

/-! Characterizations of `Credit` / `Debit` on int64-representable data. -/

theorem Credit_fail {a : Account} {c : Int} (hc : c ≤ 0) :
    a.Credit c = .error .invalidAmount := by
  unfold Account.Credit
  rw [if_pos hc]

theorem Credit_ok {a : Account} {c : Int} (hc : ¬ c ≤ 0)
    (hlo : -(2 ^ 63) ≤ a.balance + c) (hhi : a.balance + c < 2 ^ 63) :
    a.Credit c = .ok { a with balance := a.balance + c } := by
  unfold Account.Credit
  rw [wrap64_eq_self hlo hhi, if_neg hc]

theorem Debit_fail_neg {a : Account} {c : Int} (hc : c ≤ 0) :
    a.Debit c = .error .invalidAmount := by
  unfold Account.Debit
  rw [if_pos hc]

theorem Debit_fail_insuff {a : Account} {c : Int} (hc : ¬ c ≤ 0)
    (hlo : -(2 ^ 63) ≤ a.balance - c) (hhi : a.balance - c < 2 ^ 63)
    (hneg : a.balance - c < 0) :
    a.Debit c = .error .insufficientFunds := by
  unfold Account.Debit
  rw [wrap64_eq_self hlo hhi, if_neg hc, if_pos hneg]

theorem Debit_ok {a : Account} {c : Int} (hc : ¬ c ≤ 0)
    (hlo : -(2 ^ 63) ≤ a.balance - c) (hhi : a.balance - c < 2 ^ 63)
    (hnn : ¬ a.balance - c < 0) :
    a.Debit c = .ok { a with balance := a.balance - c } := by
  unfold Account.Debit
  rw [wrap64_eq_self hlo hhi, if_neg hc, if_neg hnn]

/-- Ledger induction: starting from a balance in `[0, 2^63)`, if every
operation amount is below `2^63` and no successful credit overflows, the
run's final balance is the start plus the net applied amount, stays in
`[0, 2^63)`, and every intermediate balance is nonnegative. -/
theorem applyOps_ledger (ops : List Op) :
    ∀ a : Account, 0 ≤ a.balance → a.balance < 2 ^ 63 →
    (ops.all fun op => decide (op.amount < 2 ^ 63)) = true →
    noCreditOverflow a ops = true →
    (applyOps a ops).balance = a.balance + appliedDelta a ops
    ∧ 0 ≤ (applyOps a ops).balance ∧ (applyOps a ops).balance < 2 ^ 63
    ∧ ∀ n, 0 ≤ (applyOps a (ops.take n)).balance := by
  induction ops with
  | nil =>
    intro a h0 h1 _ _
    refine ⟨by simp [applyOps, appliedDelta], by simpa [applyOps], by simpa [applyOps], ?_⟩
    intro n
    simpa [applyOps] using h0
  | cons op rest ih =>
    intro a h0 h1 hamt hov
    rw [List.all_cons, Bool.and_eq_true] at hamt
    obtain ⟨hamt1, hamt2⟩ := hamt
    rw [decide_eq_true_iff] at hamt1
    have main :
        noCreditOverflow (applyOp a op) rest = true
        ∧ 0 ≤ (applyOp a op).balance ∧ (applyOp a op).balance < 2 ^ 63
        ∧ appliedDelta a (op :: rest)
            = ((applyOp a op).balance - a.balance) + appliedDelta (applyOp a op) rest := by
      cases op with
      | credit c =>
        simp only [noCreditOverflow, Bool.and_eq_true, decide_eq_true_iff] at hov
        obtain ⟨hov1, hov2⟩ := hov
        by_cases hc : c ≤ 0
        · have he := Credit_fail (a := a) hc
          simp only [applyOp, he, appliedDelta]
          exact ⟨by simpa [applyOp, he] using hov2, h0, h1, by ring⟩
        · have he := Credit_ok (a := a) hc (by omega) hov1
          simp only [applyOp, he, appliedDelta]
          refine ⟨by simpa [applyOp, he] using hov2, by omega, by simpa using hov1, by ring⟩
      | debit c =>
        simp only [noCreditOverflow] at hov
        simp only [Op.amount] at hamt1
        by_cases hc : c ≤ 0
        · have he := Debit_fail_neg (a := a) hc
          simp only [applyOp, he, appliedDelta]
          exact ⟨by simpa [applyOp, he] using hov, h0, h1, by ring⟩
        · by_cases hneg : a.balance - c < 0
          · have he := Debit_fail_insuff (a := a) hc (by omega) (by omega) hneg
            simp only [applyOp, he, appliedDelta]
            exact ⟨by simpa [applyOp, he] using hov, h0, h1, by ring⟩
          · have he := Debit_ok (a := a) hc (by omega) (by omega) hneg
            simp only [applyOp, he, appliedDelta]
            refine ⟨by simpa [applyOp, he] using hov, by simp; omega, by simp; omega, by ring⟩
    obtain ⟨hov', hb0, hb1, hdelta⟩ := main
    obtain ⟨e1, e2, e3, e4⟩ := ih (applyOp a op) hb0 hb1 hamt2 hov'
    have hfold : applyOps a (op :: rest) = applyOps (applyOp a op) rest := by
      simp [applyOps]
    refine ⟨?_, ?_, ?_, ?_⟩
    · rw [hfold, e1, hdelta]
      ring
    · rw [hfold]
      exact e2
    · rw [hfold]
      exact e3
    · intro n
      cases n with
      | zero => simpa [applyOps] using h0
      | succ m =>
        have : applyOps a ((op :: rest).take (m + 1))
            = applyOps (applyOp a op) (rest.take m) := by
          simp [applyOps]
        rw [this]
        exact e4 m

/-- Claim C5 (amended): for every account created via `NewAccount` and every
finite sequence of credit/debit calls whose amounts are below `2^63` and in
which no successful credit overflows the int64 balance, the final balance
equals the sum of the succeeded credits minus the sum of the succeeded
debits, and the balance is nonnegative after every prefix of the
sequence. -/
theorem account_ledger_invariant
    (id hn : String) (cl : CLABE) (a : Account) (ops : List Op)
    (hacct : NewAccount id hn cl = .ok a)
    (hamt : (ops.all fun op => decide (op.amount < 2 ^ 63)) = true)
    (hov : noCreditOverflow a ops = true) :
    (applyOps a ops).balance = appliedDelta a ops
    ∧ ∀ n, 0 ≤ (applyOps a (ops.take n)).balance := by
  have hbal : a.balance = 0 := by
    unfold NewAccount at hacct
    split at hacct
    · cases hacct
    · injection hacct with h
      rw [← h]
  obtain ⟨e1, e2, e3, e4⟩ :=
    applyOps_ledger ops a (by omega) (by rw [hbal]; norm_num) hamt hov
  exact ⟨by rw [e1, hbal, zero_add], e4⟩

theorem account_ledger_invariant_witness :
    (applyOps acct0 [Op.credit 100, Op.debit 30]).balance
        = appliedDelta acct0 [Op.credit 100, Op.debit 30]
    ∧ ∀ n, 0 ≤ (applyOps acct0 ([Op.credit 100, Op.debit 30].take n)).balance :=
  account_ledger_invariant "acc-1" "Alice" clabeA acct0 [Op.credit 100, Op.debit 30]
    rfl (by decide) (by decide)

/-- Claim C5 counterexample: starting from the account `NewAccount` builds
(balance 0), two successful credits of `2^62` cents wrap the int64 balance
to `-(2^63)`: the balance goes negative and differs from the sum of the
applied credits. -/
theorem account_ledger_overflow_cex :
    NewAccount "acc-1" "Alice" clabeA = .ok acct0
    ∧ (applyOps acct0 [Op.credit (2 ^ 62), Op.credit (2 ^ 62)]).balance < 0
    ∧ (applyOps acct0 [Op.credit (2 ^ 62), Op.credit (2 ^ 62)]).balance
        ≠ appliedDelta acct0 [Op.credit (2 ^ 62), Op.credit (2 ^ 62)] :=
  ⟨rfl, by decide, by decide⟩

/-- Claim C6: amounts ≤ 0 make both `Credit` and `Debit` fail with the
invalid-amount error leaving the balance unchanged, and for every
(data-model-valid, int64) balance `B` and int64 debit amount `A > B`,
`Debit` fails with the insufficient-funds error leaving the balance
unchanged. -/
theorem credit_debit_validation (a : Account) :
    (∀ c : Int, c ≤ 0 →
      a.Credit c = .error .invalidAmount ∧ a.Debit c = .error .invalidAmount
      ∧ applyOp a (.credit c) = a ∧ applyOp a (.debit c) = a)
    ∧ (∀ A : Int, 0 ≤ a.balance → a.balance < 2 ^ 63 → a.balance < A → A < 2 ^ 63 →
      a.Debit A = .error .insufficientFunds ∧ applyOp a (.debit A) = a) := by
  constructor
  · intro c hc
    have h1 := Credit_fail (a := a) hc
    have h2 := Debit_fail_neg (a := a) hc
    exact ⟨h1, h2, by simp [applyOp, h1], by simp [applyOp, h2]⟩
  · intro A h0 h1 h2 h3
    have hA : a.Debit A = .error .insufficientFunds :=
      Debit_fail_insuff (by omega) (by omega) (by omega) (by omega)
    exact ⟨hA, by simp [applyOp, hA]⟩

theorem credit_debit_validation_witness :
    accA.Credit 0 = .error .invalidAmount
    ∧ accA.Debit (-5) = .error .invalidAmount
    ∧ applyOp accA (.credit 0) = accA
    ∧ accA.Debit 20000 = .error .insufficientFunds
    ∧ applyOp accA (.debit 20000) = accA := by
  obtain ⟨h1, h2⟩ := credit_debit_validation accA
  exact ⟨(h1 0 (by decide)).1, (h1 (-5) (by decide)).2.1, (h1 0 (by decide)).2.2.1,
    (h2 20000 (by decide) (by decide) (by decide) (by decide)).1,
    (h2 20000 (by decide) (by decide) (by decide) (by decide)).2⟩

/-- Claim C2 counterexample: with stored balance `2^63 - 1` and amount 1
(which satisfies `0 < amount ≤ stored balance`), the credited balance wraps
around, so the stored balance afterwards is `-(2^63)`, not
`original + amount` as the claim states. -/
theorem transfer_same_account_overflow_cex :
    ([("A", accMax)] : Store).lookup "A" = some accMax
    ∧ 0 < (1 : Int) ∧ (1 : Int) ≤ accMax.balance
    ∧ (TransferExecute [("A", accMax)] ("OK", none) ⟨"A", "A", 1⟩).store.lookup "A"
        = some { accMax with balance := -(2 ^ 63) }
    ∧ -(2 ^ 63) ≠ accMax.balance + 1 :=
  ⟨rfl, by decide, by decide, rfl, by decide⟩

/-- Claim C7 counterexample: at attempt index 0 (where Go documents
`math.Pow(x, 0) = 1` for every `x`, so the pow factor is exactly 1) with
`baseDelay = 2^53 + 3` ns and `maxDelay = 2^62` ns, the int64-to-float64
conversion rounds `2^53 + 3` up to `2^53 + 4` (round to nearest, ties to
even), the computed exponential `2^53 + 4` is below `maxDelay` so the cap
does not engage, and `rand.Int63n(2^53 + 5)` can legitimately draw
`2^53 + 4` — a delay strictly above the claimed bound
`min(baseDelay * multiplier^0, maxDelay) = 2^53 + 3`. -/
theorem fullJitter_float_rounding_cex :
    FullJitter (2 ^ 53 + 3) ⟨1, 0⟩ (2 ^ 62) (fun n => n - 1) = 2 ^ 53 + 4
    ∧ (0 : Int) ≤ 2 ^ 53 + 4 ∧ (2 ^ 53 + 4 : Int) < 2 ^ 53 + 5
    ∧ ¬ ((2 ^ 53 + 4 : ℚ)
          ≤ min (((2 ^ 53 + 3 : Int) : ℚ) * (2 : ℚ) ^ (0 : Nat)) (((2 ^ 62 : Int) : ℚ))) := by
  refine ⟨by decide, by decide, by decide, ?_⟩
  push_cast
  rw [min_eq_left (by norm_num)]
  norm_num

/-- Claim C7 (amended): for every attempt index, every outcome of the
random source (`draw n ∈ [0, n)`, the `rand.Int63n` contract) and every
value `powv` of the `math.Pow` call, the full-jitter delay lies in
`[0, min(baseDelay * multiplier ^ attemptIndex, maxDelay)]` provided the
float64-computed exponential is nonnegative and does not exceed the exact
real product (no upward rounding anywhere in the pipeline, as holds for the
client's constants `baseDelay = 200ms`, `multiplier = 2.0`). -/
theorem fullJitter_bound (attemptIndex : Nat) (baseDelay : Int) (multiplier : ℚ)
    (maxDelay : Int) (powv : FP) (draw : Int → Int)
    (hmax : 0 ≤ maxDelay)
    (hexpnn : 0 ≤ fpToInt64 (fpMul (i64ToFloat baseDelay) powv))
    (hexp : (fpToInt64 (fpMul (i64ToFloat baseDelay) powv) : ℚ)
        ≤ (baseDelay : ℚ) * multiplier ^ attemptIndex)
    (hdraw : ∀ n : Int, 0 < n → 0 ≤ draw n ∧ draw n < n) :
    0 ≤ FullJitter baseDelay powv maxDelay draw
    ∧ (FullJitter baseDelay powv maxDelay draw : ℚ)
        ≤ min ((baseDelay : ℚ) * multiplier ^ attemptIndex) (maxDelay : ℚ) := by
  simp only [FullJitter]
  set E := fpToInt64 (fpMul (i64ToFloat baseDelay) powv) with hE
  set capped := if E > maxDelay then maxDelay else E with hcap
  have hcnn : 0 ≤ capped := by
    rw [hcap]
    split <;> omega
  obtain ⟨hr0, hr1⟩ := hdraw (capped + 1) (by omega)
  have hrle : draw (capped + 1) ≤ capped := by omega
  have hcapE : capped ≤ E := by
    rw [hcap]
    split <;> omega
  have hcapM : capped ≤ maxDelay := by
    rw [hcap]
    split <;> omega
  refine ⟨hr0, le_min ?_ ?_⟩
  · have hc1 : (draw (capped + 1) : ℚ) ≤ (E : ℚ) := by
      exact_mod_cast le_trans hrle hcapE
    exact le_trans hc1 hexp
  · exact_mod_cast le_trans hrle hcapM

theorem fullJitter_bound_witness :
    0 ≤ FullJitter 200 ⟨2, 0⟩ 3000 (fun n => n - 1)
    ∧ (FullJitter 200 ⟨2, 0⟩ 3000 (fun n => n - 1) : ℚ)
        ≤ min (((200 : Int) : ℚ) * ((2 : Int) : ℚ) ^ (1 : Nat)) (((3000 : Int) : ℚ)) :=
  fullJitter_bound 1 200 (((2 : Int) : ℚ)) 3000 ⟨2, 0⟩ (fun n => n - 1)
    (by norm_num) (by decide)
    (by rw [show fpToInt64 (fpMul (i64ToFloat 200) ⟨2, 0⟩) = 400 from by decide]
        push_cast
        norm_num)
    (fun n hn => ⟨by show (0 : Int) ≤ n - 1; omega, by show n - 1 < n; omega⟩)

/-- The loop makes at most `fuel` attempts. -/
theorem stpLoop_attempts_le (succ cancel : Nat → Bool) :
    ∀ fuel i, (stpLoop succ cancel fuel i).attempts ≤ fuel := by
  intro fuel
  induction fuel with
  | zero =>
    intro i
    simp [stpLoop]
  | succ f ihf =>
    intro i
    simp only [stpLoop]
    split
    · simp
    · split
      · simp
      · split
        · simp
        · have := ihf (i + 1)
          simp only []
          omega

/-- Claim C8: the payment rail client makes at most 5 attempts (indices
0..4); a success at the first non-failing attempt `i` (reached without
cancellation) returns status OK with no error after exactly `i + 1` attempts
and `i` completed waits (no further attempt or wait), and if all 5 attempts
fail transiently and no wait is cancelled, it returns status FAILED carrying
the transient error after exactly 5 attempts and 4 waits (no retry or wait
after the final attempt). -/
theorem stp_retry_contract (succ cancel : Nat → Bool) :
    (SendTransfer succ cancel).attempts ≤ 5
    ∧ (∀ i, i ≤ 4 → succ i = true →
        (∀ j, j < i → succ j = false ∧ cancel j = false) →
        SendTransfer succ cancel = ⟨"OK", none, i + 1, i⟩)
    ∧ ((∀ j, j ≤ 4 → succ j = false) → (∀ j, j < 4 → cancel j = false) →
        SendTransfer succ cancel = ⟨"FAILED", some .transientSTP, 5, 4⟩) := by
  refine ⟨stpLoop_attempts_le succ cancel 5 0, ?_, ?_⟩
  · intro i hi hs hfail
    interval_cases i
    · simp [SendTransfer, stpLoop, hs]
    · have h0 := hfail 0 (by omega)
      simp [SendTransfer, stpLoop, h0.1, h0.2, hs]
    · have h0 := hfail 0 (by omega)
      have h1 := hfail 1 (by omega)
      simp [SendTransfer, stpLoop, h0.1, h0.2, h1.1, h1.2, hs]
    · have h0 := hfail 0 (by omega)
      have h1 := hfail 1 (by omega)
      have h2 := hfail 2 (by omega)
      simp [SendTransfer, stpLoop, h0.1, h0.2, h1.1, h1.2, h2.1, h2.2, hs]
    · have h0 := hfail 0 (by omega)
      have h1 := hfail 1 (by omega)
      have h2 := hfail 2 (by omega)
      have h3 := hfail 3 (by omega)
      simp [SendTransfer, stpLoop, h0.1, h0.2, h1.1, h1.2, h2.1, h2.2, h3.1, h3.2, hs]
  · intro hs hc
    have s0 := hs 0 (by omega)
    have s1 := hs 1 (by omega)
    have s2 := hs 2 (by omega)
    have s3 := hs 3 (by omega)
    have s4 := hs 4 (by omega)
    have c0 := hc 0 (by omega)
    have c1 := hc 1 (by omega)
    have c2 := hc 2 (by omega)
    have c3 := hc 3 (by omega)
    simp [SendTransfer, stpLoop, s0, s1, s2, s3, s4, c0, c1, c2, c3]

theorem stp_retry_contract_witness :
    SendTransfer (fun i => decide (i = 2)) (fun _ => false) = ⟨"OK", none, 3, 2⟩ :=
  (stp_retry_contract (fun i => decide (i = 2)) (fun _ => false)).2.1 2
    (by omega) (by decide) (by decide)

/-- The acceptance condition in the claim's own words: after removing all
whitespace characters, exactly 18 ASCII digits remain. -/
def whitespaceStripped18Digits (raw : String) : Bool :=
  (raw.toList.filter fun ch => !ch.isWhitespace).length == 18
    && (raw.toList.filter fun ch => !ch.isWhitespace).all
        (fun r => decide ('0' ≤ r ∧ r ≤ '9'))

/-- Claim C9 counterexample: `"032180000118359719\t"` consists of exactly 18
ASCII digits after whitespace removal, yet the factory rejects it — the code
strips only space characters (U+0020), so the trailing tab survives and
fails the length/digit check. -/
theorem clabe_whitespace_cex :
    whitespaceStripped18Digits "032180000118359719\t" = true
    ∧ NewCLABE "032180000118359719\t" = .error .invalidCLABE :=
  ⟨by decide, rfl⟩

/-- Claim C9 (amended): the factory accepts exactly those inputs that after
removal of space characters (U+0020 — not other whitespace) consist of
exactly 18 ASCII digits, normalizing to that digit string; in particular
`"032180000118359719"` is accepted and `"12345"` is rejected. -/
theorem clabe_factory_accepts (raw : String) :
    ((∃ c, NewCLABE raw = .ok c)
      ↔ (raw.toList.filter fun ch => ch ≠ ' ').length = 18
          ∧ (raw.toList.filter fun ch => ch ≠ ' ').all
              (fun r => decide ('0' ≤ r ∧ r ≤ '9')) = true)
    ∧ (∀ c, NewCLABE raw = .ok c
        → c.value = String.mk (raw.toList.filter fun ch => ch ≠ ' '))
    ∧ NewCLABE "032180000118359719" = .ok ⟨"032180000118359719"⟩
    ∧ NewCLABE "12345" = .error .invalidCLABE := by
  refine ⟨⟨?_, ?_⟩, ?_, rfl, rfl⟩
  · rintro ⟨c, hc⟩
    simp only [NewCLABE] at hc
    split at hc
    · cases hc
    · split at hc
      · rename_i h1 h2
        exact ⟨by omega, h2⟩
      · cases hc
  · rintro ⟨h1, h2⟩
    refine ⟨⟨String.mk (raw.toList.filter fun ch => ch ≠ ' ')⟩, ?_⟩
    simp only [NewCLABE]
    rw [if_neg (by omega), if_pos h2]
  · intro c hc
    simp only [NewCLABE] at hc
    split at hc
    · cases hc
    · split at hc
      · injection hc with h
        rw [← h]
      · cases hc

theorem clabe_factory_accepts_witness :
    NewCLABE "032180000118359719" = .ok ⟨"032180000118359719"⟩
    ∧ NewCLABE "12345" = .error .invalidCLABE :=
  ⟨(clabe_factory_accepts "032180000118359719").2.2.1,
    (clabe_factory_accepts "12345").2.2.2⟩

/-! Lemmas about the pointer-level repository. -/

theorem lookup_mem {α β : Type} [BEq α] [LawfulBEq α] :
    ∀ {l : List (α × β)} {k : α} {v : β}, l.lookup k = some v → (k, v) ∈ l := by
  intro l
  induction l with
  | nil =>
    intro k v h
    cases h
  | cons kv rest ih =>
    intro k v h
    obtain ⟨k2, v2⟩ := kv
    simp only [List.lookup] at h
    split at h
    · rename_i hbeq
      injection h with h
      have : k = k2 := eq_of_beq hbeq
      simp [this, ← h]
    · simp [ih h]

theorem heapGet_set_ne {h : Heap} {p q : Nat} {a : Account} (hne : q ≠ p) :
    heapGet (heapSet h p a) q = heapGet h q := by
  simp [heapGet, heapSet, List.lookup, beq_eq_false_iff_ne.2 hne]

theorem heapGet_alloc_lt {h : Heap} {a : Account} {q : Nat} (hq : q < h.next) :
    heapGet (heapAlloc h a).1 q = heapGet h q := by
  have hne : q ≠ h.next := by omega
  simp [heapGet, heapAlloc, List.lookup, beq_eq_false_iff_ne.2 hne]

/-- Claim C10: on a well-formed repository state, `Create` for an account
whose ID is already bound fails with the already-exists error (no state is
produced); `ByID` on an absent id fails with the not-found error; and
mutating (crediting or debiting) the snapshot cell `ByID` returned does not
change the account value a subsequent `ByID` for the same id hands out. -/
theorem store_contract (r : PtrRepo) (h : Heap) (id : String) (hwf : RepoWF r h) :
    (∀ p a0, heapGet h p = some a0 → (r.lookup a0.ID).isSome = true →
        PtrRepo.Create r h p = .error .alreadyExists)
    ∧ (r.lookup id = none → PtrRepo.ByID r h id = .error .notFound)
    ∧ (∀ h2 p2, PtrRepo.ByID r h id = .ok (h2, p2) → ∀ cents,
        PtrRepo.byIDValue r (creditAt h2 p2 cents) id = PtrRepo.byIDValue r h id
        ∧ PtrRepo.byIDValue r (debitAt h2 p2 cents) id = PtrRepo.byIDValue r h id) := by
  refine ⟨?_, ?_, ?_⟩
  · intro p a0 hp hin
    simp [PtrRepo.Create, hp, hin]
  · intro hnone
    simp [PtrRepo.ByID, hnone]
  · intro h2 p2 hok cents
    cases hlk : r.lookup id with
    | none =>
      simp only [PtrRepo.ByID, hlk] at hok
      cases hok
    | some p =>
      simp only [PtrRepo.ByID, hlk] at hok
      cases hga : heapGet h p with
      | none =>
        simp only [cloneAccount, hga, Option.map] at hok
        cases hok
      | some a =>
        simp only [cloneAccount, hga, Option.map] at hok
        have hpair : heapAlloc h a = (h2, p2) := by
          cases hok
          rfl
        have hh2 : h2 = ⟨(h.next, a) :: h.cells, h.next + 1⟩ :=
          (congrArg Prod.fst hpair).symm
        have hp2 : p2 = h.next := (congrArg Prod.snd hpair).symm
        have hplt : p < h.next := hwf (id, p) (lookup_mem hlk)
        have hget2 : heapGet h2 p2 = some a := by
          rw [hh2, hp2]
          simp [heapGet, List.lookup]
        have halloc : heapGet h2 p = heapGet h p := by
          rw [hh2]
          exact heapGet_alloc_lt (a := a) (h := h) hplt
        have hvalue : ∀ h3 : Heap, heapGet h3 p = heapGet h p →
            PtrRepo.byIDValue r h3 id = PtrRepo.byIDValue r h id := by
          intro h3 hg
          simp [PtrRepo.byIDValue, hlk, hg]
        constructor
        · cases hcr : a.Credit cents with
          | ok a2 =>
            apply hvalue
            simp only [creditAt, hget2, hcr]
            rw [heapGet_set_ne (by omega)]
            exact halloc
          | error e =>
            apply hvalue
            simp only [creditAt, hget2, hcr]
            exact halloc
        · cases hdb : a.Debit cents with
          | ok a2 =>
            apply hvalue
            simp only [debitAt, hget2, hdb]
            rw [heapGet_set_ne (by omega)]
            exact halloc
          | error e =>
            apply hvalue
            simp only [debitAt, hget2, hdb]
            exact halloc

def repoW : PtrRepo := [("A", 0)]

def heapW : Heap := ⟨[(0, accA)], 1⟩

theorem store_contract_witness :
    PtrRepo.ByID repoW heapW "Z" = .error .notFound
    ∧ PtrRepo.byIDValue repoW (creditAt ⟨[(1, accA), (0, accA)], 2⟩ 1 500) "A"
        = PtrRepo.byIDValue repoW heapW "A"
    ∧ PtrRepo.Create repoW heapW 0 = .error .alreadyExists :=
  ⟨(store_contract repoW heapW "Z" (by unfold RepoWF; decide)).2.1 rfl,
    ((store_contract repoW heapW "A" (by unfold RepoWF; decide)).2.2
      ⟨[(1, accA), (0, accA)], 2⟩ 1 rfl 500).1,
    (store_contract repoW heapW "A" (by unfold RepoWF; decide)).1 0 accA rfl rfl⟩
